import Mathlib

/-!
# Verification of the swagger-rs support library

A shallow embedding, in Lean 4, of the core mechanisms of the `swagger`
crate (Metaswitch/swagger-rs):

* the path-prefix composite router (`src/composites.rs`,
  `CompositeService::call` and the `NotFound` trait);
* the `oneOf` / `anyOf` deserialization loops (`src/one_any_of.rs`,
  the `one_of!` and `any_of!` macros);
* the heterogeneous context cons-list with its `Has` / `Pop` / `Push`
  capability operations (`src/context.rs`, `new_context_type!`);
* the `style=form, explode=false` parameter codec
  (`src/serde/ser.rs`, `src/serde/de.rs`);
* the base64 `ByteArray` wrapper (`src/base64_format.rs`).

Stateful Rust code here is in fact purely functional dispatch over owned
values, so each piece embeds as a plain function.  Machine integers are
embedded as `Nat`/`Int` with explicit range conditions where the Rust
type imposes one.
-/

namespace Swagger

/-! ## Composite router (`src/composites.rs`)

`CompositeService` wraps an ordered `Vec` of `(base_path, service)` pairs.
`CompositeService::call` scans that vector in order and delegates the
request to the first service whose base path is a string prefix of the
request path (`req.uri().path().starts_with(base_path)`); if no entry
matches it returns `Ok` of `ResBody::not_found()`.

Services are embedded abstractly: a service is any value of a type `α`
(for pure routing questions) or a function from the request path to an
`Except` of a response (when the produced response matters). -/

/-- A hyper `Response`, restricted to the two observables the router
touches: the status code and the body. -/
structure Response (B : Type) where
  /-- HTTP status code. -/
  status : Nat
  /-- Response body. -/
  body : B
  deriving DecidableEq, Repr

/-- `NotFound::not_found` for the blanket `impl<B: Default> NotFound<B> for B`:
a response with status `404` (`StatusCode::NOT_FOUND`) and a default body. -/
def notFoundResponse (B : Type) [Inhabited B] : Response B :=
  { status := 404, body := default }

/-- Rust's `str::starts_with(&str)`: the candidate prefix's character
sequence is an initial segment of the string's character sequence.
(Byte-prefix and UTF-8 character-prefix coincide.) -/
def strStartsWith (s pre : String) : Bool :=
  pre.data.isPrefixOf s.data

/-- The routing loop of `CompositeService::call`: walk the ordered
`(base_path, service)` list and return the first service whose base path
is a prefix of the request path (`req.uri().path().starts_with(base_path)`). -/
def compositeCall {α : Type} : List (String × α) → String → Option α
  | [], _ => none
  | (basePath, service) :: rest, path =>
    if strStartsWith path basePath then some service else compositeCall rest path

/-- The same routing loop, returning the index of the selected entry
instead of the service, for reachability statements. -/
def compositeDispatchIdx {α : Type} : List (String × α) → String → Option Nat
  | [], _ => none
  | (basePath, _) :: rest, path =>
    if strStartsWith path basePath then some 0
    else (compositeDispatchIdx rest path).map (fun n => n + 1)

/-- `CompositeService::call` in full: delegate to the first matching
service, or return `Ok(ResBody::not_found())` when no base path matches.
A service is embedded as a function from the request path to the
`Result` its future resolves to. -/
def compositeCallFull {B E : Type} [Inhabited B]
    (entries : List (String × (String → Except E (Response B)))) (path : String) :
    Except E (Response B) :=
  match compositeCall entries path with
  | some service => service path
  | none => Except.ok (notFoundResponse B)

end Swagger

/-! ## Theorems: composite router -/

namespace Swagger

/-- C1. Dispatch selects the first entry (in registration order) whose
base path is a prefix of the request path, regardless of whether a later
entry has a longer matching prefix. -/
theorem composite_first_match_wins {α : Type} (entries : List (String × α))
    (path : String) (i : Nat) (hi : i < entries.length)
    (hmatch : strStartsWith path (entries.get ⟨i, hi⟩).1 = true)
    (hbefore : ∀ j (hj : j < i),
      strStartsWith path (entries.get ⟨j, Nat.lt_trans hj hi⟩).1 = false) :
    compositeCall entries path = some (entries.get ⟨i, hi⟩).2 := by
  induction entries generalizing i with
  | nil => exact absurd hi (Nat.not_lt_zero i)
  | cons e rest ih =>
    match i with
    | 0 =>
      simp only [List.get] at hmatch ⊢
      simp [compositeCall, hmatch]
    | i + 1 =>
      have h0 : strStartsWith path e.1 = false := hbefore 0 (Nat.succ_pos i)
      simp only [List.get] at hmatch h0 ⊢
      simp only [compositeCall, h0, if_false, Bool.false_eq_true]
      exact ih i (Nat.lt_of_succ_lt_succ hi) hmatch
        (fun j hj => hbefore (j + 1) (Nat.succ_lt_succ hj))

/-- C1 witness: a `CompositeService` built from `[("/a", 1), ("/ab", 2)]`
routes a request for path `"/ab/x"` to the first entry, despite the
second entry having the longer matching prefix. -/
theorem composite_first_match_wins_witness :
    compositeCall [("/a", 1), ("/ab", 2)] "/ab/x" = some 1 :=
  composite_first_match_wins [("/a", 1), ("/ab", 2)] "/ab/x" 0 (by decide)
    (by decide) (fun j hj => absurd hj (Nat.not_lt_zero j))

/-- If no base path in the list is a prefix of the request path, the
routing loop selects no service. -/
theorem compositeCall_eq_none_of_no_match {α : Type}
    (entries : List (String × α)) (path : String)
    (h : ∀ e ∈ entries, strStartsWith path e.1 = false) :
    compositeCall entries path = none := by
  induction entries with
  | nil => rfl
  | cons e rest ih =>
    have he : strStartsWith path e.1 = false := h e (List.mem_cons_self e rest)
    simp only [compositeCall, he, if_false, Bool.false_eq_true]
    exact ih (fun x hx => h x (List.mem_cons_of_mem e hx))

/-- C2. When no registered base path is a prefix of the request path,
`CompositeService::call` returns `Ok` of the `NotFound` constructor's
response — status 404 with a default body — never a `Result::Err`. -/
theorem composite_no_match_is_ok_not_found {B E : Type} [Inhabited B]
    (entries : List (String × (String → Except E (Response B)))) (path : String)
    (h : ∀ e ∈ entries, strStartsWith path e.1 = false) :
    compositeCallFull entries path = Except.ok (notFoundResponse B)
      ∧ (notFoundResponse B).status = 404
      ∧ (notFoundResponse B).body = (default : B) := by
  refine ⟨?_, rfl, rfl⟩
  unfold compositeCallFull
  rw [compositeCall_eq_none_of_no_match entries path h]

/-- C2 witness: a composite service with single base path `"/a"` returns
the configured not-found response for path `"/zzz"`. -/
theorem composite_no_match_is_ok_not_found_witness :
    compositeCallFull [("/a", fun _ => Except.ok ({ status := 200, body := 7 } : Response Nat))]
        (E := Unit) "/zzz" = Except.ok (notFoundResponse Nat)
      ∧ (notFoundResponse Nat).status = 404 :=
  have h := composite_no_match_is_ok_not_found
    [("/a", fun _ => Except.ok ({ status := 200, body := 7 } : Response Nat))]
    (E := Unit) "/zzz"
    (by intro e he; simp only [List.mem_singleton] at he; subst he; decide)
  ⟨h.1, h.2.1⟩

/-- C10. The empty base path matches every request path, and an entry is
unreachable whenever some earlier entry's base path matches every path
the later entry's base path matches: dispatch never selects the later
entry's index. -/
theorem composite_shadowed_entry_unreachable {α : Type}
    (entries : List (String × α)) (i k : Nat) (hik : i < k)
    (hk : k < entries.length)
    (hpre : ∀ path, strStartsWith path (entries.get ⟨k, hk⟩).1 = true →
      strStartsWith path (entries.get ⟨i, Nat.lt_trans hik hk⟩).1 = true) :
    (∀ path, strStartsWith path "" = true)
      ∧ ∀ path, compositeDispatchIdx entries path ≠ some k := by
  constructor
  · intro path
    simp [strStartsWith, List.isPrefixOf]
  · intro path hcontra
    -- If the dispatch index is `k`, entry `k` matched and all entries
    -- before it (entry `i` included) did not; `hpre` turns entry `k`'s
    -- match into a match for entry `i`, a contradiction.
    have hmain : ∀ (es : List (String × α)) (k : Nat) (hk : k < es.length),
        compositeDispatchIdx es path = some k →
        strStartsWith path (es.get ⟨k, hk⟩).1 = true ∧
        ∀ j (hj : j < k), strStartsWith path (es.get ⟨j, Nat.lt_trans hj hk⟩).1 = false := by
      intro es
      induction es with
      | nil => intro k hk; exact absurd hk (Nat.not_lt_zero k)
      | cons e rest ih =>
        intro k hk hdisp
        by_cases hme : strStartsWith path e.1 = true
        · simp only [compositeDispatchIdx, hme, if_true] at hdisp
          cases hdisp
          exact ⟨hme, fun j hj => absurd hj (Nat.not_lt_zero j)⟩
        · have hme' : strStartsWith path e.1 = false := by
            cases hb : strStartsWith path e.1
            · rfl
            · exact absurd hb hme
          simp only [compositeDispatchIdx, hme', if_false, Bool.false_eq_true,
            Option.map_eq_some'] at hdisp
          obtain ⟨k', hk', hkeq⟩ := hdisp
          subst hkeq
          have hrest := ih k' (Nat.lt_of_succ_lt_succ hk) hk'
          refine ⟨hrest.1, ?_⟩
          intro j hj
          match j with
          | 0 => exact hme'
          | j + 1 => exact hrest.2 j (Nat.lt_of_succ_lt_succ hj)
    have hk' := hmain entries k hk hcontra
    have hkm : strStartsWith path (entries.get ⟨k, hk⟩).1 = true := hk'.1
    have him : strStartsWith path (entries.get ⟨i, Nat.lt_trans hik hk⟩).1 = false :=
      hk'.2 i hik
    rw [hpre path hkm] at him
    exact Bool.true_eq_false ▸ him

/-- C10 witness: with entries `[("", 1), ("/a", 2)]`, the second entry is
unreachable — in particular dispatch on path `"/a/x"` selects index 0. -/
theorem composite_shadowed_entry_unreachable_witness :
    (strStartsWith "/a/x" "" = true)
      ∧ (compositeDispatchIdx [("", 1), ("/a", 2)] "/a/x" ≠ some 1)
      ∧ compositeDispatchIdx [("", 1), ("/a", 2)] "/a/x" = some 0 :=
  have h := composite_shadowed_entry_unreachable [("", 1), ("/a", 2)] 0 1
    (Nat.zero_lt_one) (by decide)
    (fun path _ => by simp [strStartsWith, List.isPrefixOf])
  ⟨h.1 "/a/x", h.2 "/a/x", by decide⟩

/-! ## `oneOf` / `anyOf` deserialization (`src/one_any_of.rs`)

The `one_of!` macro generates, for each arity, a `Deserialize` impl that
captures the input once into a generic `serde_value::Value` and tries
every variant's deserializer on a clone of the captured value:

```text
let mut result = Err(custom("data did not match any within oneOf"));
for each variant V:
    if let Ok(inner) = V::deserialize(captured.clone()) {
        if result.is_err() { result = Ok(Self::V(inner)); }
        else { return Err(custom("data matched multiple within oneOf")); }
    }
result
```

The `any_of!` macro instead returns `Ok` on the first variant whose
deserializer accepts the captured value, and errs with
`"data did not match any within anyOf"` only when none does.  Variant
deserializers are embedded as functions `V → Option α` (`some` = the
variant's `Deserialize` accepted the captured value). -/

/-- The two error outcomes of the generated `oneOf` deserializer. -/
inductive OneOfError where
  /-- `"data did not match any within oneOf"`. -/
  | noMatch : OneOfError
  /-- `"data matched multiple within oneOf"`. -/
  | multipleMatch : OneOfError
  deriving DecidableEq, Repr

/-- The message passed to `De::Error::custom` for each `oneOf` error. -/
def OneOfError.message : OneOfError → String
  | noMatch => "data did not match any within oneOf"
  | multipleMatch => "data matched multiple within oneOf"

/-- The single error outcome of the generated `anyOf` deserializer. -/
inductive AnyOfError where
  /-- `"data did not match any within anyOf"`. -/
  | noMatch : AnyOfError
  deriving DecidableEq, Repr

/-- The message passed to `De::Error::custom` for the `anyOf` error. -/
def AnyOfError.message : AnyOfError → String
  | noMatch => "data did not match any within anyOf"

/-- The body of the `one_of!` loop: fold the variant deserializers over
the running `result`, with the early `return Err(multiple)` when a second
variant accepts the captured value. -/
def oneOfGo {V α : Type} (v : V) :
    List (V → Option α) → Except OneOfError α → Except OneOfError α
  | [], result => result
  | d :: ds, result =>
    match d v with
    | some inner =>
      match result with
      | Except.error _ => oneOfGo v ds (Except.ok inner)
      | Except.ok _ => Except.error OneOfError.multipleMatch
    | none => oneOfGo v ds result

/-- The generated `oneOf` deserializer: run the loop starting from the
no-match error. -/
def oneOfDeserialize {V α : Type} (variants : List (V → Option α)) (v : V) :
    Except OneOfError α :=
  oneOfGo v variants (Except.error OneOfError.noMatch)

/-- The generated `anyOf` deserializer: return the first variant whose
deserializer accepts the captured value. -/
def anyOfDeserialize {V α : Type} : List (V → Option α) → V → Except AnyOfError α
  | [], _ => Except.error AnyOfError.noMatch
  | d :: ds, v =>
    match d v with
    | some inner => Except.ok inner
    | none => anyOfDeserialize ds v

/-- The number of variant deserializers that accept the captured value. -/
def countMatches {V α : Type} (variants : List (V → Option α)) (v : V) : Nat :=
  variants.countP (fun d => (d v).isSome)

/-- `OneOf2<A, B>` (and structurally `AnyOf2<A, B>`): a two-variant
tagged union with variants in declared order. -/
inductive OneOf2 (A B : Type) where
  /-- `A` variant. -/
  | A : A → OneOf2 A B
  /-- `B` variant. -/
  | B : B → OneOf2 A B
  deriving DecidableEq, Repr

/-- `AnyOf2<A, B>`. -/
inductive AnyOf2 (A B : Type) where
  /-- `A` variant. -/
  | A : A → AnyOf2 A B
  /-- `B` variant. -/
  | B : B → AnyOf2 A B
  deriving DecidableEq, Repr

/-- serde's `u32` deserialization of a captured JSON integer literal:
accepts exactly the integers in `[0, 2^32)`. -/
def u32FromValue (n : Int) : Option Int :=
  if 0 ≤ n ∧ n < 4294967296 then some n else none

/-- serde's `u64` deserialization of a captured JSON integer literal:
accepts exactly the integers in `[0, 2^64)`. -/
def u64FromValue (n : Int) : Option Int :=
  if 0 ≤ n ∧ n < 18446744073709551616 then some n else none

/-- The variant deserializers of `OneOf2<u32, u64>` on a captured
integer value, in declared order. -/
def oneOf2U32U64Variants : List (Int → Option (OneOf2 Int Int)) :=
  [fun v => (u32FromValue v).map OneOf2.A, fun v => (u64FromValue v).map OneOf2.B]

/-- The variant deserializers of `AnyOf2<u32, u64>` on a captured
integer value, in declared order. -/
def anyOf2U32U64Variants : List (Int → Option (AnyOf2 Int Int)) :=
  [fun v => (u32FromValue v).map AnyOf2.A, fun v => (u64FromValue v).map AnyOf2.B]

/-- If no variant accepts the value, the `oneOf` loop leaves the running
result unchanged. -/
theorem oneOfGo_all_none {V α : Type} (v : V) (ds : List (V → Option α))
    (r : Except OneOfError α) (h : ∀ d ∈ ds, d v = none) : oneOfGo v ds r = r := by
  induction ds generalizing r with
  | nil => rfl
  | cons d ds ih =>
    have hd : d v = none := h d (List.mem_cons_self d ds)
    simp only [oneOfGo, hd]
    exact ih r (fun x hx => h x (List.mem_cons_of_mem d hx))

/-- Once the `oneOf` loop holds an `Ok`, any further accepting variant
produces the ambiguous-match error. -/
theorem oneOfGo_ok_multiple {V α : Type} (v : V) (ds : List (V → Option α))
    (a : α) (h : 0 < countMatches ds v) :
    oneOfGo v ds (Except.ok a) = Except.error OneOfError.multipleMatch := by
  induction ds with
  | nil => simp [countMatches] at h
  | cons d ds ih =>
    cases hd : d v with
    | some b => simp [oneOfGo, hd]
    | none =>
      have h' : 0 < countMatches ds v := by
        simpa [countMatches, List.countP_cons, hd] using h
      simp only [oneOfGo, hd]
      exact ih h'

/-- With an error accumulator and exactly one accepting variant, the
`oneOf` loop returns `Ok` of that variant's value. -/
theorem oneOfGo_err_one {V α : Type} (v : V) (ds : List (V → Option α))
    (e : OneOfError) (h : countMatches ds v = 1) :
    ∃ d ∈ ds, ∃ a, d v = some a ∧ oneOfGo v ds (Except.error e) = Except.ok a := by
  induction ds with
  | nil => simp [countMatches] at h
  | cons d ds ih =>
    cases hd : d v with
    | some b =>
      have h0 : countMatches ds v = 0 := by
        simpa [countMatches, List.countP_cons, hd] using h
      have hall : ∀ x ∈ ds, x v = none := by
        intro x hx
        have := (List.countP_eq_zero).1 h0 x hx
        exact Option.not_isSome_iff_eq_none.1 (fun hs => this hs)
      refine ⟨d, List.mem_cons_self d ds, b, hd, ?_⟩
      simp only [oneOfGo, hd]
      exact oneOfGo_all_none v ds (Except.ok b) hall
    | none =>
      have h1 : countMatches ds v = 1 := by
        simpa [countMatches, List.countP_cons, hd] using h
      obtain ⟨d', hd', a, ha, hrun⟩ := ih h1
      refine ⟨d', List.mem_cons_of_mem d hd', a, ha, ?_⟩
      simp only [oneOfGo, hd]
      exact hrun

/-- With an error accumulator and at least two accepting variants, the
`oneOf` loop returns the ambiguous-match error. -/
theorem oneOfGo_err_multiple {V α : Type} (v : V) (ds : List (V → Option α))
    (e : OneOfError) (h : 2 ≤ countMatches ds v) :
    oneOfGo v ds (Except.error e) = Except.error OneOfError.multipleMatch := by
  induction ds with
  | nil => simp [countMatches] at h
  | cons d ds ih =>
    cases hd : d v with
    | some b =>
      have h' : 0 < countMatches ds v := by
        have hc : countMatches (d :: ds) v = countMatches ds v + 1 := by
          simp [countMatches, List.countP_cons, hd]
        omega
      simp only [oneOfGo, hd]
      exact oneOfGo_ok_multiple v ds b h'
    | none =>
      have h' : 2 ≤ countMatches ds v := by
        simpa [countMatches, List.countP_cons, hd] using h
      simp only [oneOfGo, hd]
      exact ih h'

/-- A successful `oneOf` loop run returns a value produced by one of the
variant deserializers (unless it was already in the accumulator). -/
theorem oneOfGo_ok_mem {V α : Type} (v : V) (ds : List (V → Option α))
    (r : Except OneOfError α) (a : α) (h : oneOfGo v ds r = Except.ok a) :
    r = Except.ok a ∨ ∃ d ∈ ds, d v = some a := by
  induction ds generalizing r with
  | nil => exact Or.inl h
  | cons d ds ih =>
    cases hd : d v with
    | some b =>
      cases r with
      | error e =>
        simp only [oneOfGo, hd] at h
        cases ih (Except.ok b) h with
        | inl hr =>
          refine Or.inr ⟨d, List.mem_cons_self d ds, ?_⟩
          cases hr
          exact hd
        | inr hex =>
          obtain ⟨d', hd', ha⟩ := hex
          exact Or.inr ⟨d', List.mem_cons_of_mem d hd', ha⟩
      | ok b' =>
        simp only [oneOfGo, hd] at h
        exact absurd h (by simp)
    | none =>
      simp only [oneOfGo, hd] at h
      cases ih r h with
      | inl hr => exact Or.inl hr
      | inr hex =>
        obtain ⟨d', hd', ha⟩ := hex
        exact Or.inr ⟨d', List.mem_cons_of_mem d hd', ha⟩

/-- C3. `oneOf` deserialization succeeds iff exactly one variant accepts
the captured value (returning a value produced by an accepting variant);
zero accepting variants give the no-match error and two or more give the
ambiguous-match error, and the two errors are distinct; in particular
`OneOf2<u32, u64>` on the literal `123` fails with the ambiguous-match
error. -/
theorem oneOf_exactly_one_spec {V α : Type} (variants : List (V → Option α)) (v : V) :
    ((∃ a, oneOfDeserialize variants v = Except.ok a) ↔ countMatches variants v = 1)
      ∧ (∀ a, oneOfDeserialize variants v = Except.ok a → ∃ d ∈ variants, d v = some a)
      ∧ (countMatches variants v = 0 →
          oneOfDeserialize variants v = Except.error OneOfError.noMatch)
      ∧ (2 ≤ countMatches variants v →
          oneOfDeserialize variants v = Except.error OneOfError.multipleMatch)
      ∧ OneOfError.multipleMatch.message = "data matched multiple within oneOf"
      ∧ OneOfError.noMatch.message ≠ OneOfError.multipleMatch.message
      ∧ oneOfDeserialize oneOf2U32U64Variants 123
          = Except.error OneOfError.multipleMatch := by
  have hzero : countMatches variants v = 0 →
      oneOfDeserialize variants v = Except.error OneOfError.noMatch := by
    intro h0
    have hall : ∀ x ∈ variants, x v = none := by
      intro x hx
      have := (List.countP_eq_zero).1 h0 x hx
      exact Option.not_isSome_iff_eq_none.1 (fun hs => this hs)
    exact oneOfGo_all_none v variants (Except.error OneOfError.noMatch) hall
  have hmulti : 2 ≤ countMatches variants v →
      oneOfDeserialize variants v = Except.error OneOfError.multipleMatch :=
    fun h2 => oneOfGo_err_multiple v variants OneOfError.noMatch h2
  refine ⟨⟨?_, ?_⟩, ?_, hzero, hmulti, rfl, by decide, rfl⟩
  · rintro ⟨a, ha⟩
    by_contra hne
    rcases Nat.lt_or_ge (countMatches variants v) 1 with hlt | hge
    · have h0 : countMatches variants v = 0 := Nat.lt_one_iff.1 hlt
      rw [hzero h0] at ha
      exact absurd ha (by simp)
    · have h2 : 2 ≤ countMatches variants v := by omega
      rw [hmulti h2] at ha
      exact absurd ha (by simp)
  · intro h1
    obtain ⟨d, _, a, _, hrun⟩ := oneOfGo_err_one v variants OneOfError.noMatch h1
    exact ⟨a, hrun⟩
  · intro a ha
    cases oneOfGo_ok_mem v variants (Except.error OneOfError.noMatch) a ha with
    | inl hr => exact absurd hr (by simp)
    | inr hex => exact hex

/-- C3 witness: both variants of `OneOf2<u32, u64>` accept `123`, and the
deserializer returns the ambiguous-match error there. -/
theorem oneOf_exactly_one_spec_witness :
    2 ≤ countMatches oneOf2U32U64Variants 123
      ∧ oneOfDeserialize oneOf2U32U64Variants 123 = Except.error OneOfError.multipleMatch :=
  ⟨by decide, (oneOf_exactly_one_spec oneOf2U32U64Variants 123).2.2.2.1 (by decide)⟩

/-- C4. `anyOf` deserialization returns the first variant in declared
order whose deserializer accepts the captured value, with no ambiguity
check, and errs (with the anyOf no-match message) only when no variant
accepts it; in particular `AnyOf2<u32, u64>` selects the `u32` variant
on `123` and the `u64` variant on `5000000000`. -/
theorem anyOf_first_match_spec {V α : Type} (variants : List (V → Option α)) (v : V) :
    (∀ (i : Nat) (hi : i < variants.length) (a : α),
        variants.get ⟨i, hi⟩ v = some a →
        (∀ j (hj : j < i), variants.get ⟨j, Nat.lt_trans hj hi⟩ v = none) →
        anyOfDeserialize variants v = Except.ok a)
      ∧ ((∀ d ∈ variants, d v = none) →
          anyOfDeserialize variants v = Except.error AnyOfError.noMatch)
      ∧ AnyOfError.noMatch.message = "data did not match any within anyOf"
      ∧ anyOfDeserialize anyOf2U32U64Variants 123 = Except.ok (AnyOf2.A 123)
      ∧ anyOfDeserialize anyOf2U32U64Variants 5000000000 = Except.ok (AnyOf2.B 5000000000) := by
  refine ⟨?_, ?_, rfl, rfl, rfl⟩
  · intro i hi a hmatch hbefore
    induction variants generalizing i with
    | nil => exact absurd hi (Nat.not_lt_zero i)
    | cons d ds ih =>
      match i with
      | 0 =>
        simp only [List.get] at hmatch
        simp [anyOfDeserialize, hmatch]
      | i + 1 =>
        have h0 : d v = none := hbefore 0 (Nat.succ_pos i)
        simp only [List.get] at hmatch h0 ⊢
        simp only [anyOfDeserialize, h0]
        exact ih i (Nat.lt_of_succ_lt_succ hi) hmatch
          (fun j hj => hbefore (j + 1) (Nat.succ_lt_succ hj))
  · intro h
    induction variants with
    | nil => rfl
    | cons d ds ih =>
      have hd : d v = none := h d (List.mem_cons_self d ds)
      simp only [anyOfDeserialize, hd]
      exact ih (fun x hx => h x (List.mem_cons_of_mem d hx))

/-- C4 witness: `AnyOf2<u32, u64>` on `123` selects the first (`u32`)
variant with value `123`, applying the first-match rule at index 0. -/
theorem anyOf_first_match_spec_witness :
    anyOfDeserialize anyOf2U32U64Variants 123 = Except.ok (AnyOf2.A 123) :=
  (anyOf_first_match_spec anyOf2U32U64Variants 123).1 0 (by decide)
    (AnyOf2.A 123) (by decide) (fun j hj => absurd hj (Nat.not_lt_zero j))

/-! ## Context cons-list (`src/context.rs`, `new_context_type!`)

`new_context_type!(Ctx, Empty, T1, ..., Tn)` generates a recursive
struct `Ctx<T, C> { head: T, tail: C }` plus the unit `Empty`, and
implements the capability traits over it:

* `Push<Ti>`: `push(self, item)` conses a new head node in front;
* `Has<Ti>` for a node whose head type is `Ti`: `get`/`get_mut` return
  the head, `set` replaces the head — and a forwarding impl (generated
  only for pairs of distinct member types) that delegates to the tail;
* `Pop<Ti>` for a node whose head type is `Ti`: returns
  `(head, tail)` — and a forwarding impl (distinct types only) that pops
  from the tail and re-conses its own head onto the remainder.

Because the forwarding impls exist only for distinct head/requested type
pairs, trait resolution is structural linear search from the head: the
outermost node of the requested type always wins.  We embed member types
as a tag-indexed family `F : Nat → Type` and a context list as a list of
tagged values; `Has`/`Pop`/`set` resolve to the first (outermost) node
carrying the requested tag, exactly mirroring that resolution. -/

/-- A context cons-list over the tag-indexed member family `F`:
`new_context_type!`'s `Ctx<T, C>` chain, head first. -/
def Ctx (F : Nat → Type) : Type := List (Sigma F)

/-- `Push<Ti>::push`: cons a new head node. -/
def ctxPush {F : Nat → Type} (i : Nat) (v : F i) (c : Ctx F) : Ctx F :=
  ⟨i, v⟩ :: c

/-- `Has<Ti>::get`: the head node if its type matches, else the
forwarding impl delegates to the tail. -/
def ctxGet {F : Nat → Type} (i : Nat) : Ctx F → Option (F i)
  | [] => none
  | ⟨j, v⟩ :: rest => if h : j = i then some (h ▸ v) else ctxGet i rest

/-- `Has<Ti>::set`: replace the head value if its type matches, else the
forwarding impl delegates to the tail (`self.tail.set(item)`). -/
def ctxSet {F : Nat → Type} (i : Nat) (v : F i) : Ctx F → Ctx F
  | [] => []
  | ⟨j, w⟩ :: rest =>
    if j = i then ⟨i, v⟩ :: rest else ⟨j, w⟩ :: ctxSet i v rest

/-- `Pop<Ti>::pop`: return `(head, tail)` if the head type matches, else
the forwarding impl pops the tail and re-conses its own head onto the
remainder. -/
def ctxPop {F : Nat → Type} (i : Nat) : Ctx F → Option (F i × Ctx F)
  | [] => none
  | ⟨j, v⟩ :: rest =>
    if h : j = i then some (h ▸ v, rest)
    else (ctxPop i rest).map (fun p => (p.1, ⟨j, v⟩ :: p.2))

/-- Popping a tag that is present returns the outermost value of that
tag: the popped value is what `ctxGet` sees. -/
theorem ctxPop_fst_eq_ctxGet {F : Nat → Type} (i : Nat) (c : Ctx F) :
    (ctxPop i c).map Prod.fst = ctxGet i c := by
  induction c with
  | nil => rfl
  | cons e rest ih =>
    obtain ⟨j, v⟩ := e
    by_cases h : j = i
    · subst h
      simp [ctxPop, ctxGet]
    · simp only [ctxPop, ctxGet, dif_neg h, Option.map_map]
      rw [← ih]
      rfl

/-- Popping tag `i` leaves lookups of every tag `j ≠ i` unchanged. -/
theorem ctxGet_of_ctxPop_ne {F : Nat → Type} (i j : Nat) (hne : j ≠ i)
    (c rest : Ctx F) (v : F i) (h : ctxPop i c = some (v, rest)) :
    ctxGet j rest = ctxGet j c := by
  induction c generalizing rest with
  | nil => exact absurd h (by simp [ctxPop])
  | cons e c ih =>
    obtain ⟨k, w⟩ := e
    by_cases hk : k = i
    · subst hk
      simp only [ctxPop, dif_pos rfl, Option.some_inj] at h
      cases h
      have hkj : k ≠ j := fun hkj => hne hkj.symm
      simp [ctxGet, dif_neg hkj]
    · simp only [ctxPop, dif_neg hk, Option.map_eq_some'] at h
      obtain ⟨⟨v', rest'⟩, hpop, heq⟩ := h
      cases heq
      by_cases hkj : k = j
      · subst hkj
        simp [ctxGet, dif_pos rfl]
      · simp only [ctxGet, dif_neg hkj]
        exact ih rest' hpop

/-- Popping tag `i` leaves pop-values of every tag `j ≠ i` unchanged. -/
theorem ctxPop_of_ctxPop_ne {F : Nat → Type} (i j : Nat) (hne : j ≠ i)
    (c rest : Ctx F) (v : F i) (h : ctxPop i c = some (v, rest)) :
    (ctxPop j rest).map Prod.fst = (ctxPop j c).map Prod.fst := by
  rw [ctxPop_fst_eq_ctxGet, ctxPop_fst_eq_ctxGet]
  exact ctxGet_of_ctxPop_ne i j hne c rest v h

/-- C5. For any context list containing a value of member type `Ti`
(in particular any list built from a permutation of pushes of the
macro-declared member set), `pop::<Ti>` followed by `push::<Ti>` of the
extracted value yields an observably equal list: every `Has` lookup and
every `Pop` extraction returns the same value as on the original. -/
theorem ctx_pop_push_roundtrip {F : Nat → Type} (c : Ctx F) (i : Nat)
    (v : F i) (rest : Ctx F) (h : ctxPop i c = some (v, rest)) :
    ∀ j, ctxGet j (ctxPush i v rest) = ctxGet j c
      ∧ (ctxPop j (ctxPush i v rest)).map Prod.fst = (ctxPop j c).map Prod.fst := by
  intro j
  by_cases hj : j = i
  · subst hj
    constructor
    · have hget : ctxGet j c = some v := by
        rw [← ctxPop_fst_eq_ctxGet, h]
        rfl
      rw [hget]
      simp [ctxPush, ctxGet]
    · rw [ctxPop_fst_eq_ctxGet, ctxPop_fst_eq_ctxGet]
      have hget : ctxGet j c = some v := by
        rw [← ctxPop_fst_eq_ctxGet, h]
        rfl
      rw [hget]
      simp [ctxPush, ctxGet]
  · constructor
    · have hstep : ctxGet j (ctxPush i v rest) = ctxGet j rest := by
        simp [ctxPush, ctxGet, dif_neg (fun hh : i = j => hj hh.symm)]
      rw [hstep]
      exact ctxGet_of_ctxPop_ne i j hj c rest v h
    · have hstep : (ctxPop j (ctxPush i v rest)).map Prod.fst
          = (ctxPop j rest).map Prod.fst := by
        rw [ctxPop_fst_eq_ctxGet, ctxPop_fst_eq_ctxGet]
        simp [ctxPush, ctxGet, dif_neg (fun hh : i = j => hj hh.symm)]
      rw [hstep]
      exact ctxPop_of_ctxPop_ne i j hj c rest v h

/-- C5 witness: on the two-member context `[⟨0, 10⟩, ⟨1, 20⟩]`, popping
tag 1 and re-pushing the extracted value preserves both lookups. -/
theorem ctx_pop_push_roundtrip_witness :
    ctxPop (F := fun _ => Nat) 1 [⟨0, 10⟩, ⟨1, 20⟩] = some (20, [⟨0, 10⟩])
      ∧ ctxGet (F := fun _ => Nat) 0 (ctxPush 1 20 [⟨0, 10⟩])
          = ctxGet (F := fun _ => Nat) 0 [⟨0, 10⟩, ⟨1, 20⟩]
      ∧ ctxGet (F := fun _ => Nat) 1 (ctxPush 1 20 [⟨0, 10⟩])
          = ctxGet (F := fun _ => Nat) 1 [⟨0, 10⟩, ⟨1, 20⟩] :=
  have h : ctxPop (F := fun _ => Nat) 1 [⟨0, 10⟩, ⟨1, 20⟩] = some (20, [⟨0, 10⟩]) := rfl
  ⟨h, (ctx_pop_push_roundtrip [⟨0, 10⟩, ⟨1, 20⟩] 1 20 [⟨0, 10⟩] h 0).1,
    (ctx_pop_push_roundtrip [⟨0, 10⟩, ⟨1, 20⟩] 1 20 [⟨0, 10⟩] h 1).1⟩

/-- C6. Pushing a second value of a member type already in the list
produces a new outer node: `Has::get` returns the newly pushed value,
`Pop::pop` extracts the newly pushed value with the untouched original
list as remainder, and the original value is still found there —
shadowed, not replaced or rejected. -/
theorem ctx_push_shadows {F : Nat → Type} (c : Ctx F) (i : Nat)
    (w v : F i) (h : ctxGet i c = some w) :
    ctxGet i (ctxPush i v c) = some v
      ∧ ctxPop i (ctxPush i v c) = some (v, c)
      ∧ ctxGet i c = some w := by
  refine ⟨?_, ?_, h⟩
  · simp [ctxPush, ctxGet]
  · simp [ctxPush, ctxPop]

/-- C6 witness: pushing `99` at tag 0 onto `[⟨0, 10⟩]` shadows `10`:
`get` sees `99`, `pop` extracts `99`, and the remainder still holds `10`. -/
theorem ctx_push_shadows_witness :
    ctxGet (F := fun _ => Nat) 0 (ctxPush 0 99 [⟨0, 10⟩]) = some 99
      ∧ ctxPop (F := fun _ => Nat) 0 (ctxPush 0 99 [⟨0, 10⟩]) = some (99, [⟨0, 10⟩])
      ∧ ctxGet (F := fun _ => Nat) 0 [⟨0, 10⟩] = some 10 :=
  ctx_push_shadows [⟨0, 10⟩] 0 10 99 rfl

/-! ## Authorization data (`src/auth.rs`)

`Authorization { subject, scopes, issuer }` with all fields `pub`, and
`Scopes::Some(BTreeSet<String>) | Scopes::All`.  The shipped default
context (`new_context_type!(ContextBuilder, EmptyContext, XSpanIdString,
Option<AuthData>, Option<Authorization>)`) stores an
`Option<Authorization>` slot, and the `Has` trait of `src/context.rs`
exposes `get`, `get_mut` and `set` on it. -/

/-- `Scopes`: a finite scope set (the `BTreeSet` embedded as a sorted-
irrelevant list) or all scopes. -/
inductive Scopes where
  /-- `Scopes::Some(set)`. -/
  | some : List String → Scopes
  /-- `Scopes::All`. -/
  | all : Scopes
  deriving DecidableEq, Repr

/-- `Authorization`: subject, granted scopes, optional issuer.  All
three fields are `pub` in the source. -/
structure Authorization where
  /-- Subject for which authorization is granted. -/
  subject : String
  /-- Scopes for which authorization is granted. -/
  scopes : Scopes
  /-- Identity of the party to whom authorization was granted. -/
  issuer : Option String
  deriving DecidableEq, Repr

/-- `AuthData`: raw authentication data. -/
inductive AuthData where
  /-- `AuthData::Basic(username, password)`. -/
  | basic : String → String → AuthData
  /-- `AuthData::Bearer(token)`. -/
  | bearer : String → AuthData
  /-- `AuthData::ApiKey(key)`. -/
  | apiKey : String → AuthData
  deriving DecidableEq, Repr

/-- The member family of the shipped default context type: tag 0 is
`XSpanIdString` (a string wrapper), tag 1 is `Option<AuthData>`, tag 2
is `Option<Authorization>`. -/
def SwaggerCtxTy : Nat → Type
  | 0 => String
  | 1 => Option AuthData
  | _ => Option Authorization

/-- `Has::set` on a present tag replaces the outermost stored value:
subsequent `get` observes the new value. -/
theorem ctxGet_ctxSet_present {F : Nat → Type} (i : Nat) (v : F i)
    (c : Ctx F) (w : F i) (h : ctxGet i c = some w) :
    ctxGet i (ctxSet i v c) = some v := by
  induction c with
  | nil => exact absurd h (by simp [ctxGet])
  | cons e rest ih =>
    obtain ⟨k, u⟩ := e
    by_cases hk : k = i
    · subst hk
      simp [ctxSet, ctxGet]
    · simp only [ctxGet, dif_neg hk] at h
      simp only [ctxSet, if_neg hk, ctxGet, dif_neg hk]
      exact ih h

/-- An authorization value set by an authenticator. -/
def authAlice : Authorization :=
  { subject := "alice", scopes := Scopes.all, issuer := Option.none }

/-- A different authorization value a downstream handler might write. -/
def authMallory : Authorization :=
  { subject := "mallory", scopes := Scopes.all, issuer := Option.none }

/-- A default-shaped context holding a span id and `authAlice`, as an
authenticator middleware would leave it. -/
def exampleAuthCtx : Ctx SwaggerCtxTy :=
  ctxPush 2 (Option.some authAlice) (ctxPush 0 "span-1" [])

/-- C9 counterexample: an `Authorization` stored in a context is *not*
unchangeable by downstream handlers.  `Has::<Option<Authorization>>::set`
— part of the library's public interface and available to every handler
whose context bound includes `Has<Option<Authorization>>` — replaces the
stored value: after `set`, `get` observes a different `Authorization`
than the one the authenticator stored. -/
theorem authorization_mutable_counterexample :
    ctxGet 2 exampleAuthCtx = some (Option.some authAlice)
      ∧ ctxGet 2 (ctxSet 2 (Option.some authMallory) exampleAuthCtx)
          = some (Option.some authMallory)
      ∧ authMallory ≠ authAlice :=
  ⟨rfl, rfl, by decide⟩

/-- C9 (amended). The `Authorization` type itself offers no mutating
methods, but a stored `Authorization` is not enforced read-only: any
downstream handler holding the context can replace it through the
context's public `Has` mutators (`set`, and likewise `get_mut`), so
after a `set` every lookup observes the handler's value. -/
theorem authorization_replaceable_by_downstream (c : Ctx SwaggerCtxTy)
    (a : Authorization) (h : ctxGet 2 c = some (Option.some a))
    (a' : Authorization) :
    ctxGet 2 (ctxSet 2 (Option.some a') c) = some (Option.some a') :=
  ctxGet_ctxSet_present 2 (Option.some a') c (Option.some a) h

/-- C9 (amended) witness: on the example context, a downstream `set`
replaces `authAlice` by `authMallory`. -/
theorem authorization_replaceable_by_downstream_witness :
    ctxGet 2 exampleAuthCtx = some (Option.some authAlice)
      ∧ ctxGet 2 (ctxSet 2 (Option.some authMallory) exampleAuthCtx)
          = some (Option.some authMallory) :=
  ⟨rfl, authorization_replaceable_by_downstream exampleAuthCtx authAlice rfl authMallory⟩

/-! ## Form-style parameter codec (`src/serde/ser.rs`, `src/serde/de.rs`)

`to_string` serializes in the OpenAPI `style=form, explode=false`
variant: elements are comma-joined (the `SerializerField` carries a
`first` flag and writes `","` before every element but the first); a
struct field contributes its key (serialized as a string, so
percent-encoded through `urlencoding::encode`) followed by its value
(integers via `write!("{}", v)`, i.e. decimal).

`from_str` splits the input on `','` and drives the derived struct
visitor as a map: alternating key/value tokens, keys percent-decoded
(only when they contain `'%'`), `i32` values parsed from the raw token.
The derived visitor rejects unknown keys (`deserialize_ignored_any`
errors here), duplicate fields and missing fields; a key without a value
is `Error::MissingValueForObject`.

Strings are handled at the character-list level; the percent codec
(external `urlencoding` crate) is modelled from the spec: RFC 3986
percent-encoding over UTF-8 bytes with unreserved set
`A-Z a-z 0-9 - . _ ~`. -/

/-- UTF-8 encoding of one character, as byte values. -/
def utf8Bytes (c : Char) : List Nat :=
  let n := c.toNat
  if n < 128 then [n]
  else if n < 2048 then [192 + n / 64, 128 + n % 64]
  else if n < 65536 then [224 + n / 4096, 128 + (n / 64) % 64, 128 + n % 64]
  else [240 + n / 262144, 128 + (n / 4096) % 64, 128 + (n / 64) % 64, 128 + n % 64]

/-- Upper-case hexadecimal digit for a value below 16. -/
def hexDigitUpper (n : Nat) : Char :=
  if n < 10 then Char.ofNat (48 + n) else Char.ofNat (55 + n)

/-- Modelled from the spec: the `urlencoding` crate's unreserved set,
`A-Z`, `a-z`, `0-9`, `-`, `.`, `_`, `~` (RFC 3986). -/
def isUrlUnreserved (c : Char) : Bool :=
  let n := c.toNat
  (decide (65 ≤ n) && decide (n ≤ 90)) || (decide (97 ≤ n) && decide (n ≤ 122))
    || (decide (48 ≤ n) && decide (n ≤ 57))
    || decide (n = 45) || decide (n = 46) || decide (n = 95) || decide (n = 126)

/-- Modelled from the spec: `urlencoding::encode` of one character —
kept verbatim if unreserved, otherwise each UTF-8 byte becomes `%XX`. -/
def urlencodeChar (c : Char) : List Char :=
  if isUrlUnreserved c then [c]
  else (utf8Bytes c).flatMap (fun b => ['%', hexDigitUpper (b / 16), hexDigitUpper (b % 16)])

/-- Modelled from the spec: `urlencoding::encode` over a string's
characters. -/
def urlencodeChars (cs : List Char) : List Char :=
  cs.flatMap urlencodeChar

/-- Value of a hexadecimal digit character. -/
def hexVal (c : Char) : Option Nat :=
  let n := c.toNat
  if 48 ≤ n ∧ n ≤ 57 then some (n - 48)
  else if 65 ≤ n ∧ n ≤ 70 then some (n - 55)
  else if 97 ≤ n ∧ n ≤ 102 then some (n - 87)
  else none

/-- Modelled from the spec: `urlencoding::decode`'s byte phase — every
`%XX` becomes the byte `XX`, any other character (and any `%` not
followed by two hex digits) passes through as its UTF-8 bytes. -/
def urldecodeBytes : List Char → List Nat
  | [] => []
  | '%' :: h :: l :: rest =>
    match hexVal h, hexVal l with
    | some hv, some lv => (hv * 16 + lv) :: urldecodeBytes rest
    | _, _ => utf8Bytes '%' ++ urldecodeBytes (h :: l :: rest)
  | c :: rest => utf8Bytes c ++ urldecodeBytes rest

/-- A scalar value is a valid Unicode code point (no surrogates). -/
def isValidCodepoint (n : Nat) : Bool :=
  decide (n < 55296) || (decide (57343 < n) && decide (n < 1114112))

/-- `String::from_utf8` validation and decoding: strict UTF-8, rejecting
truncated sequences, bad continuation bytes, overlong forms and
surrogates. -/
def utf8Decode : List Nat → Option (List Char)
  | [] => some []
  | b :: rest =>
    if b < 128 then
      (utf8Decode rest).map (fun cs => Char.ofNat b :: cs)
    else if b < 192 then none
    else if b < 224 then
      match rest with
      | b1 :: rest2 =>
        if 128 ≤ b1 ∧ b1 < 192 then
          let n := (b - 192) * 64 + (b1 - 128)
          if 128 ≤ n then (utf8Decode rest2).map (fun cs => Char.ofNat n :: cs)
          else none
        else none
      | [] => none
    else if b < 240 then
      match rest with
      | b1 :: b2 :: rest2 =>
        if (128 ≤ b1 ∧ b1 < 192) ∧ (128 ≤ b2 ∧ b2 < 192) then
          let n := (b - 224) * 4096 + (b1 - 128) * 64 + (b2 - 128)
          if 2048 ≤ n ∧ isValidCodepoint n then
            (utf8Decode rest2).map (fun cs => Char.ofNat n :: cs)
          else none
        else none
      | _ => none
    else if b < 248 then
      match rest with
      | b1 :: b2 :: b3 :: rest2 =>
        if (128 ≤ b1 ∧ b1 < 192) ∧ (128 ≤ b2 ∧ b2 < 192) ∧ (128 ≤ b3 ∧ b3 < 192) then
          let n := (b - 240) * 262144 + (b1 - 128) * 4096 + (b2 - 128) * 64 + (b3 - 128)
          if 65536 ≤ n ∧ n < 1114112 then
            (utf8Decode rest2).map (fun cs => Char.ofNat n :: cs)
          else none
        else none
      | _ => none
    else none

/-- `deserialize_str` / `deserialize_identifier`: percent-decode the
token only when it contains `'%'` (then re-validate as UTF-8), else use
it verbatim. -/
def formDecodeStr (cs : List Char) : Option (List Char) :=
  if cs.contains '%' then utf8Decode (urldecodeBytes cs) else some cs

/-- Rust's `str::split(',')`: tokens between commas, with empty tokens
preserved (an empty input yields one empty token). -/
def splitOnComma : List Char → List (List Char)
  | [] => [[]]
  | ',' :: rest => [] :: splitOnComma rest
  | c :: rest =>
    match splitOnComma rest with
    | t :: ts => (c :: t) :: ts
    | [] => [[c]]

/-- Leading digits fold of `i32::from_str`: all characters must be
decimal digits, at least one. -/
def parseNatDigits : List Char → Nat → Option Nat
  | [], acc => some acc
  | c :: rest, acc =>
    let n := c.toNat
    if 48 ≤ n ∧ n ≤ 57 then parseNatDigits rest (acc * 10 + (n - 48)) else none

/-- `i32::from_str`: optional sign, decimal digits, range check
`[-2^31, 2^31)`; anything else is an error. -/
def parseI32Chars : List Char → Option Int
  | [] => none
  | '-' :: rest =>
    match rest with
    | [] => none
    | _ => (parseNatDigits rest 0).bind (fun n =>
        if (n : Int) ≤ 2147483648 then some (-(n : Int)) else none)
  | '+' :: rest =>
    match rest with
    | [] => none
    | _ => (parseNatDigits rest 0).bind (fun n =>
        if (n : Int) ≤ 2147483647 then some ((n : Int)) else none)
  | cs => (parseNatDigits cs 0).bind (fun n =>
      if (n : Int) ≤ 2147483647 then some ((n : Int)) else none)

/-- The RGB test struct of the codec's test suite: `{ R, G, B }` with
`i32` fields renamed to `"R"`, `"G"`, `"B"`. -/
structure FormObject where
  /-- Red component. -/
  R : Int
  /-- Green component. -/
  G : Int
  /-- Blue component. -/
  B : Int
  deriving DecidableEq, Repr

/-- The `SerializerField` element writer: accumulated output plus the
`first` flag; writes `","` before every element but the first. -/
def serElements (toks : List (List Char)) : List Char :=
  (toks.foldl (fun st t => (st.1 ++ (if st.2 then [] else [',']) ++ t, false))
    (([] : List Char), true)).1

/-- `SerializeStruct::serialize_field`: each field contributes its
percent-encoded key followed by its decimal value, through the shared
element writer. -/
def serializeStructFields (fields : List (List Char × Int)) : List Char :=
  serElements (fields.flatMap (fun kv =>
    [urlencodeChars kv.1, (toString kv.2).data]))

/-- `to_string` of a `FormObject`: the derived `Serialize` visits the
fields in declaration order. -/
def formObjectToString (o : FormObject) : String :=
  String.mk (serializeStructFields [("R".data, o.R), ("G".data, o.G), ("B".data, o.B)])

/-- The derived struct visitor driven by `MapAccess`: alternating
key/value tokens; keys decoded as identifiers, matched against field
names; unknown keys error (`deserialize_ignored_any` is unsupported in
this format), duplicates error, a key without a value errors, and at the
end every field must be present. -/
def visitFormObject :
    List (List Char) → Option Int → Option Int → Option Int → Option FormObject
  | [], Option.some r, Option.some g, Option.some b =>
    Option.some { R := r, G := g, B := b }
  | [], _, _, _ => none
  | [_], _, _, _ => none
  | key :: value :: rest, r, g, b =>
    match formDecodeStr key with
    | Option.none => none
    | Option.some k =>
      if String.mk k = "R" then
        match r, parseI32Chars value with
        | Option.none, Option.some n => visitFormObject rest (Option.some n) g b
        | _, _ => none
      else if String.mk k = "G" then
        match g, parseI32Chars value with
        | Option.none, Option.some n => visitFormObject rest r (Option.some n) b
        | _, _ => none
      else if String.mk k = "B" then
        match b, parseI32Chars value with
        | Option.none, Option.some n => visitFormObject rest r g (Option.some n)
        | _, _ => none
      else none

/-- `from_str` for `FormObject`: split on `','` and run the visitor with
no field seen yet. -/
def formObjectFromStr (s : String) : Option FormObject :=
  visitFormObject (splitOnComma s.data) Option.none Option.none Option.none

/-- C7. Form-style (`style=form, explode=false`) serialization of
`{R:100, G:200, B:150}` produces exactly `"R,100,G,200,B,150"`, and
deserializing that string yields the original struct back. -/
theorem form_object_roundtrip :
    formObjectToString { R := 100, G := 200, B := 150 } = "R,100,G,200,B,150"
      ∧ formObjectFromStr "R,100,G,200,B,150"
          = Option.some { R := 100, G := 200, B := 150 } :=
  ⟨rfl, rfl⟩

/-! ## base64 `ByteArray` (`src/base64_format.rs`)

`ByteArray`'s `ToString` is `base64::encode(&self.0)` and its `FromStr`
is `base64::decode(s)` (its `Serialize`/`Deserialize` wrap the same two
calls through a JSON string).  The codec itself lives in the external
`base64` crate; it is modelled from the spec: RFC 4648 standard base64
— the 64-character alphabet `A-Z a-z 0-9 + /`, 3 input bytes per 4
output characters, `=`-padded final quantum, decoder rejecting non-
alphabet characters, interior padding, bad lengths and non-zero trailing
bits. -/

/-- The standard base64 alphabet, indexed by sextet value. -/
def base64Alphabet : List Char :=
  "ABCDEFGHIJKLMNOPQRSTUVWXYZabcdefghijklmnopqrstuvwxyz0123456789+/".data

/-- The alphabet character of a sextet. -/
def sextetChar (n : Nat) : Char :=
  base64Alphabet.getD n 'A'

/-- The sextet of an alphabet character (`none` for non-alphabet
characters, `'='` included). -/
def charSextet (c : Char) : Option Nat :=
  base64Alphabet.findIdx? (fun x => x == c)

/-- Modelled from the spec: `base64::encode` — three bytes become four
sextet characters; a final quantum of one or two bytes is padded with
`'='`. -/
def base64EncodeChunks : List Nat → List Char
  | b0 :: b1 :: b2 :: rest =>
    sextetChar (b0 / 4) :: sextetChar ((b0 % 4) * 16 + b1 / 16) ::
      sextetChar ((b1 % 16) * 4 + b2 / 64) :: sextetChar (b2 % 64) ::
      base64EncodeChunks rest
  | [b0, b1] =>
    [sextetChar (b0 / 4), sextetChar ((b0 % 4) * 16 + b1 / 16),
      sextetChar ((b1 % 16) * 4), '=']
  | [b0] =>
    [sextetChar (b0 / 4), sextetChar ((b0 % 4) * 16), '=', '=']
  | [] => []

/-- Decode one four-character quantum: padding only in the last one or
two positions, non-zero trailing bits rejected. -/
def base64DecodeQuad (c0 c1 c2 c3 : Char) : Option (List Nat) :=
  match charSextet c0, charSextet c1 with
  | some s0, some s1 =>
    if c2 = '=' then
      if c3 = '=' then
        if s1 % 16 = 0 then some [s0 * 4 + s1 / 16] else none
      else none
    else
      match charSextet c2 with
      | some s2 =>
        if c3 = '=' then
          if s2 % 4 = 0 then some [s0 * 4 + s1 / 16, (s1 % 16) * 16 + s2 / 4]
          else none
        else
          match charSextet c3 with
          | some s3 => some [s0 * 4 + s1 / 16, (s1 % 16) * 16 + s2 / 4, (s2 % 4) * 64 + s3]
          | none => none
      | none => none
  | _, _ => none

/-- Modelled from the spec: `base64::decode` — the input is consumed in
four-character quanta; a padded quantum may appear only at the end, and
any other length or character is an error. -/
def base64DecodeChunks : List Char → Option (List Nat)
  | [] => some []
  | c0 :: c1 :: c2 :: c3 :: rest =>
    if (c2 == '=' || c3 == '=') && !rest.isEmpty then none
    else
      match base64DecodeQuad c0 c1 c2 c3, base64DecodeChunks rest with
      | some bytes, some more => some (bytes ++ more)
      | _, _ => none
  | _ => none

/-- `ByteArray::to_string` (and its `Serialize` through a JSON string):
base64-encode the wrapped bytes. -/
def byteArrayToString (bs : List Nat) : String :=
  String.mk (base64EncodeChunks bs)

/-- `ByteArray::from_str` (and its `Deserialize` through a JSON string):
base64-decode into the wrapped bytes. -/
def byteArrayFromStr (s : String) : Option (List Nat) :=
  base64DecodeChunks s.data

/-- Every sextet's alphabet character maps back to that sextet. -/
theorem charSextet_sextetChar : ∀ n, n < 64 → charSextet (sextetChar n) = some n := by
  decide

/-- No sextet's alphabet character is the padding character. -/
theorem sextetChar_ne_pad : ∀ n, n < 64 → sextetChar n ≠ '=' := by
  decide

/-- Boolean form of `sextetChar_ne_pad`. -/
theorem sextetChar_beq_pad : ∀ n, n < 64 → (sextetChar n == '=') = false := by
  decide

/-- Decoding a full (unpadded) encoded quantum recovers its three bytes. -/
theorem base64DecodeQuad_full (b0 b1 b2 : Nat)
    (h0 : b0 < 256) (h1 : b1 < 256) (h2 : b2 < 256) :
    base64DecodeQuad (sextetChar (b0 / 4)) (sextetChar ((b0 % 4) * 16 + b1 / 16))
      (sextetChar ((b1 % 16) * 4 + b2 / 64)) (sextetChar (b2 % 64))
      = some [b0, b1, b2] := by
  have hs0 : b0 / 4 < 64 := by omega
  have hs1 : (b0 % 4) * 16 + b1 / 16 < 64 := by omega
  have hs2 : (b1 % 16) * 4 + b2 / 64 < 64 := by omega
  have hs3 : b2 % 64 < 64 := by omega
  have e0 : (b0 / 4) * 4 + ((b0 % 4) * 16 + b1 / 16) / 16 = b0 := by omega
  have e1 : (((b0 % 4) * 16 + b1 / 16) % 16) * 16 + ((b1 % 16) * 4 + b2 / 64) / 4 = b1 := by
    omega
  have e2 : (((b1 % 16) * 4 + b2 / 64) % 4) * 64 + b2 % 64 = b2 := by omega
  simp only [base64DecodeQuad, charSextet_sextetChar _ hs0, charSextet_sextetChar _ hs1,
    charSextet_sextetChar _ hs2, charSextet_sextetChar _ hs3,
    if_neg (sextetChar_ne_pad _ hs2), if_neg (sextetChar_ne_pad _ hs3)]
  rw [e0, e1, e2]

/-- Decoding the padded encoding of a two-byte final quantum recovers
its bytes. -/
theorem base64DecodeQuad_two (b0 b1 : Nat) (h0 : b0 < 256) (h1 : b1 < 256) :
    base64DecodeQuad (sextetChar (b0 / 4)) (sextetChar ((b0 % 4) * 16 + b1 / 16))
      (sextetChar ((b1 % 16) * 4)) '=' = some [b0, b1] := by
  have hs0 : b0 / 4 < 64 := by omega
  have hs1 : (b0 % 4) * 16 + b1 / 16 < 64 := by omega
  have hs2 : (b1 % 16) * 4 < 64 := by omega
  have hz : ((b1 % 16) * 4) % 4 = 0 := by omega
  have e0 : (b0 / 4) * 4 + ((b0 % 4) * 16 + b1 / 16) / 16 = b0 := by omega
  have e1 : (((b0 % 4) * 16 + b1 / 16) % 16) * 16 + ((b1 % 16) * 4) / 4 = b1 := by omega
  simp only [base64DecodeQuad, charSextet_sextetChar _ hs0, charSextet_sextetChar _ hs1,
    charSextet_sextetChar _ hs2, if_neg (sextetChar_ne_pad _ hs2), if_pos rfl, hz,
    reduceIte]
  rw [e0, e1]

/-- Decoding the padded encoding of a one-byte final quantum recovers
its byte. -/
theorem base64DecodeQuad_one (b0 : Nat) (h0 : b0 < 256) :
    base64DecodeQuad (sextetChar (b0 / 4)) (sextetChar ((b0 % 4) * 16)) '=' '='
      = some [b0] := by
  have hs0 : b0 / 4 < 64 := by omega
  have hs1 : (b0 % 4) * 16 < 64 := by omega
  have hz : ((b0 % 4) * 16) % 16 = 0 := by omega
  have e0 : (b0 / 4) * 4 + ((b0 % 4) * 16) / 16 = b0 := by omega
  simp only [base64DecodeQuad, charSextet_sextetChar _ hs0, charSextet_sextetChar _ hs1,
    if_pos rfl, hz, reduceIte]
  rw [e0]

/-- Decoding the encoding of any byte sequence recovers the sequence. -/
theorem base64_roundtrip_chunks :
    ∀ bs : List Nat, (∀ x ∈ bs, x < 256) →
      base64DecodeChunks (base64EncodeChunks bs) = some bs
  | [], _ => rfl
  | [b0], h => by
    have h0 : b0 < 256 := h b0 (by simp)
    have hs1 : (b0 % 4) * 16 < 64 := by omega
    simp only [base64EncodeChunks, base64DecodeChunks, List.isEmpty_nil,
      Bool.not_true, Bool.and_false, Bool.false_eq_true, if_false,
      base64DecodeQuad_one b0 h0, reduceIte, List.append_nil]
  | [b0, b1], h => by
    have h0 : b0 < 256 := h b0 (by simp)
    have h1 : b1 < 256 := h b1 (by simp)
    simp only [base64EncodeChunks, base64DecodeChunks, List.isEmpty_nil,
      Bool.not_true, Bool.and_false, Bool.false_eq_true, if_false,
      base64DecodeQuad_two b0 b1 h0 h1, reduceIte, List.append_nil]
  | b0 :: b1 :: b2 :: rest, h => by
    have h0 : b0 < 256 := h b0 (by simp)
    have h1 : b1 < 256 := h b1 (by simp)
    have h2 : b2 < 256 := h b2 (by simp)
    have hs2 : (b1 % 16) * 4 + b2 / 64 < 64 := by omega
    have hs3 : b2 % 64 < 64 := by omega
    have ih := base64_roundtrip_chunks rest (fun x hx => h x (by simp [hx]))
    simp only [base64EncodeChunks, base64DecodeChunks,
      sextetChar_beq_pad _ hs2, sextetChar_beq_pad _ hs3, Bool.or_self,
      Bool.false_and, Bool.false_eq_true, if_false,
      base64DecodeQuad_full b0 b1 b2 h0 h1 h2, ih, List.cons_append,
      List.nil_append]

/-- C8. For every byte sequence `b`, decoding the base64 text produced
by encoding `b` (`ByteArray`'s `ToString` followed by its `FromStr`, and
equally its `Serialize` followed by its `Deserialize`, which wrap the
same codec) succeeds and returns exactly `b`. -/
theorem byte_array_base64_roundtrip (bs : List Nat) (h : ∀ x ∈ bs, x < 256) :
    byteArrayFromStr (byteArrayToString bs) = some bs :=
  base64_roundtrip_chunks bs h

/-- C8 witness: the bytes `[0, 255, 16, 77]` survive the round-trip. -/
theorem byte_array_base64_roundtrip_witness :
    byteArrayFromStr (byteArrayToString [0, 255, 16, 77]) = some [0, 255, 16, 77] :=
  byte_array_base64_roundtrip [0, 255, 16, 77] (by decide)

end Swagger
